import Mathlib

/-!
Verification development for the `pumlck` PlantUML validator
(`src/puml_validator.rs`, `src/main.rs`).

The validator scans text files for `@startuml`/`@enduml` sections, and inside
each section runs two regular-expression pattern rules and six instantiations
of a generic stack-based open/middle/close block matcher, collecting
`PumlErr` diagnostics that are finally sorted (stably) by line number.

Rust regular expressions (used only through `Regex::is_match`) are embedded
as a small regular-expression language with Brzozowski-derivative matching;
each concrete pattern of the source is transcribed as a `RE` value.
-/

namespace Pumlck

/-! ### Regular expressions (model of `regex::Regex::is_match`) -/

/-- Regular expressions over characters.  `cls p` matches a single character
`c` iff `p c`; this encodes literal characters, character classes such as
`[^;]`, `\s`, `\w` and the wildcard `.` of the Rust patterns. -/
inductive RE where
  | emp : RE
  | eps : RE
  | cls : (Char → Bool) → RE
  | cat : RE → RE → RE
  | alt : RE → RE → RE
  | star : RE → RE

/-- Does the regular expression accept the empty string? -/
def RE.nullable : RE → Bool
  | .emp => false
  | .eps => true
  | .cls _ => false
  | .cat a b => a.nullable && b.nullable
  | .alt a b => a.nullable || b.nullable
  | .star _ => true

/-- Brzozowski derivative of a regular expression with respect to one
character. -/
def RE.deriv : RE → Char → RE
  | .emp, _ => .emp
  | .eps, _ => .emp
  | .cls p, c => if p c then .eps else .emp
  | .cat a b, c =>
    if a.nullable then .alt (.cat (a.deriv c) b) (b.deriv c)
    else .cat (a.deriv c) b
  | .alt a b, c => .alt (a.deriv c) (b.deriv c)
  | .star a, c => .cat (a.deriv c) (.star a)

/-- Full-string acceptance via iterated derivatives. -/
def RE.accepts : RE → List Char → Bool
  | r, [] => r.nullable
  | r, c :: s => (r.deriv c).accepts s

/-- Single literal character. -/
def chrRE (c : Char) : RE := .cls (fun d => d == c)

/-- Literal string (concatenation of its characters). -/
def strRE (s : String) : RE := s.data.foldr (fun c r => .cat (chrRE c) r) .eps

/-- Character class `[^c]`: any character other than `c`. -/
def notChr (c : Char) : RE := .cls (fun d => !(d == c))

/-- The wildcard `.` of the Rust regex crate: any character except `\n`. -/
def anyChr : RE := .cls (fun d => !(d == '\n'))

/-- Pattern `.*` (greedy/lazy is irrelevant for `is_match`). -/
def dotStar : RE := .star anyChr

/-- The `\s` class (whitespace; the source's inputs are ASCII, and Lean's
`Char.isWhitespace` covers the whitespace characters that occur). -/
def wsRE : RE := .cls Char.isWhitespace

/-- Pattern `\s*`. -/
def wsStar : RE := .star wsRE

/-- Pattern `\s+`. -/
def wsPlus : RE := .cat wsRE (.star wsRE)

/-- Pattern `r?`. -/
def optRE (r : RE) : RE := .alt r .eps

/-- A word character for `\b`: `[A-Za-z0-9_]`. -/
def isWordChar (c : Char) : Bool := c.isAlphanum || c == '_'

/-- Pattern `\([^)]*\)`. -/
def parenNoClose : RE := .cat (chrRE '(') (.cat (.star (notChr ')')) (chrRE ')'))

/-- Pattern `\((.*?)\)` (for `is_match`, equivalent to `\(` any* `\)`). -/
def parenAny : RE := .cat (chrRE '(') (.cat dotStar (chrRE ')'))

/-- Unanchored-search acceptance of a pattern with neither `^` nor `$`:
wrap it in `.*` on both sides and test full-string acceptance. -/
def isMatch (r : RE) (s : String) : Bool :=
  RE.accepts (.cat dotStar (.cat r dotStar)) s.data

/-- Acceptance of a pattern anchored at the start (`^...`): trailing `.*`. -/
def isMatchAtStart (r : RE) (s : String) : Bool :=
  RE.accepts (.cat r dotStar) s.data

/-- Acceptance of a pattern anchored at the end (`...$`): leading `.*`. -/
def isMatchAtEnd (r : RE) (s : String) : Bool :=
  RE.accepts (.cat dotStar r) s.data

/-- Acceptance of a fully anchored pattern (`^...$`). -/
def isMatchFull (r : RE) (s : String) : Bool :=
  RE.accepts r s.data

/-! ### The concrete patterns of `Puml::validate` -/

/-- Rust pattern `[^;]*?;$` (trigger of the missing-`:` rule). -/
def mSemiEnd (s : String) : Bool :=
  isMatchAtEnd (.cat (.star (notChr ';')) (chrRE ';')) s

/-- Rust pattern `:[^;]*?;` (validation of the missing-`:` rule). -/
def mColonSemi (s : String) : Bool :=
  isMatch (.cat (chrRE ':') (.cat (.star (notChr ';')) (chrRE ';'))) s

/-- Rust pattern `:[^;]*?` (trigger of the missing-`;` rule). -/
def mColon (s : String) : Bool :=
  isMatch (.cat (chrRE ':') (.star (notChr ';'))) s

/-- Rust pattern `:[^;]*?;$` (validation of the missing-`;` rule). -/
def mColonSemiEnd (s : String) : Bool :=
  isMatchAtEnd (.cat (chrRE ':') (.cat (.star (notChr ';')) (chrRE ';'))) s

/-- Rust pattern `^if\s*\([^)]*\)\s*then\s*\([^)]*\)`. -/
def mIfOpen (s : String) : Bool :=
  isMatchAtStart
    (.cat (strRE "if") (.cat wsStar (.cat parenNoClose
      (.cat wsStar (.cat (strRE "then") (.cat wsStar parenNoClose)))))) s

/-- Rust pattern
`^(?:else\s*\([^)]*\)|(?:\([^)]*\))?\s*elseif\s*(?:\([^)]*\))?\s*then\s*(?:\([^)]*\))?)`. -/
def mIfMiddle (s : String) : Bool :=
  isMatchAtStart
    (.alt
      (.cat (strRE "else") (.cat wsStar parenNoClose))
      (.cat (optRE parenNoClose) (.cat wsStar (.cat (strRE "elseif")
        (.cat wsStar (.cat (optRE parenNoClose) (.cat wsStar (.cat (strRE "then")
          (.cat wsStar (optRE parenNoClose)))))))))) s

/-- Rust pattern `^endif`. -/
def mIfClose (s : String) : Bool := isMatchAtStart (strRE "endif") s

/-- Rust pattern `^switch\s*\((.*?)\)`. -/
def mSwitchOpen (s : String) : Bool :=
  isMatchAtStart (.cat (strRE "switch") (.cat wsStar parenAny)) s

/-- Rust pattern `^case\s*\((.*?)\)`. -/
def mCaseMiddle (s : String) : Bool :=
  isMatchAtStart (.cat (strRE "case") (.cat wsStar parenAny)) s

/-- Rust pattern `^endswitch$`. -/
def mSwitchClose (s : String) : Bool := isMatchFull (strRE "endswitch") s

/-- Rust pattern `^repeat\b`: the word boundary after a word character is
expressed as end-of-string or a following non-word character. -/
def mRepeatOpen (s : String) : Bool :=
  isMatchFull (.cat (strRE "repeat")
    (.alt .eps (.cat (.cls (fun c => !(isWordChar c))) dotStar))) s

/-- Rust pattern `^repeat\s+while\s*\((.*?)\)\s+is\s+(.*)`. -/
def mRepeatClose (s : String) : Bool :=
  isMatchAtStart
    (.cat (strRE "repeat") (.cat wsPlus (.cat (strRE "while") (.cat wsStar
      (.cat parenAny (.cat wsPlus (.cat (strRE "is") (.cat wsPlus dotStar)))))))) s

/-- Rust pattern `^while\s*\((.*?)\)`. -/
def mWhileOpen (s : String) : Bool :=
  isMatchAtStart (.cat (strRE "while") (.cat wsStar parenAny)) s

/-- Rust pattern `^endwhile\s*\((.*?)\)`. -/
def mWhileClose (s : String) : Bool :=
  isMatchAtStart (.cat (strRE "endwhile") (.cat wsStar parenAny)) s

/-- Rust pattern `^fork`. -/
def mForkOpen (s : String) : Bool := isMatchAtStart (strRE "fork") s

/-- Rust pattern `^fork again$` (middle of the fork matcher). -/
def mForkMiddle (s : String) : Bool := isMatchFull (strRE "fork again") s

/-- Rust pattern `^end fork|^end merge`. -/
def mForkClose (s : String) : Bool :=
  isMatchAtStart (strRE "end fork") s || isMatchAtStart (strRE "end merge") s

/-- Rust pattern `^split`. -/
def mSplitOpen (s : String) : Bool := isMatchAtStart (strRE "split") s

/-- Rust pattern `^fork again$` (middle of the split matcher; the source
passes this same pattern string for the split instantiation). -/
def mSplitMiddle (s : String) : Bool := isMatchFull (strRE "fork again") s

/-- Rust pattern `^end split`. -/
def mSplitClose (s : String) : Bool := isMatchAtStart (strRE "end split") s

/-! ### Data model (`PumlErr`, `Puml`) -/

/-- A diagnostic: `struct PumlErr { line_number: usize, msg: String }`. -/
structure PumlErr where
  line_number : Nat
  msg : String
deriving DecidableEq

/-- A section: `struct Puml { starting_line: usize, lines: Vec<String>,
errors: Vec<PumlErr> }`. -/
structure Puml where
  starting_line : Nat
  lines : List String
  errors : List PumlErr
deriving DecidableEq

/-- Constructor `Puml::new()`. -/
def Puml.new : Puml := ⟨0, [], []⟩

/-- Rust `str::trim`: strip whitespace from both ends of the line. -/
def trimS (s : String) : String :=
  ⟨((s.data.dropWhile Char.isWhitespace).reverse.dropWhile Char.isWhitespace).reverse⟩

/-- Rust `str::starts_with`. -/
def startsWithS (s p : String) : Bool := p.data.isPrefixOf s.data

/-! ### `Puml::validate_pattern` -/

/-- The diagnostics pushed by the loop of `Puml::validate_pattern`
(`puml_validator.rs:121-131`) over the given lines, the first line carrying
index `n`: a line whose trim matches the trigger pattern but not the
validation pattern yields one diagnostic `"<- " ++ msg` at its index. -/
def patternErrs (simple validation : String → Bool) (msg : String) :
    Nat → List String → List PumlErr
  | _, [] => []
  | n, line :: rest =>
    (if simple (trimS line) && !(validation (trimS line))
     then [⟨n, "<- " ++ msg⟩] else [])
      ++ patternErrs simple validation msg (n + 1) rest

/-- Method `Puml::validate_pattern`: append the rule's diagnostics to `errors`. -/
def Puml.validate_pattern (p : Puml) (simple validation : String → Bool)
    (msg : String) : Puml :=
  { p with errors := p.errors ++ patternErrs simple validation msg 0 p.lines }

/-! ### `Puml::validate_open_close` -/

/-- The "no opening" message: `format!("<- no opening {} found", open_text)`. -/
def noOpeningMsg (open_text : String) : String :=
  "<- no opening " ++ open_text ++ " found"

/-- The "no closing" message: `format!("<- no closing {} found", close_text)`. -/
def noClosingMsg (close_text : String) : String :=
  "<- no closing " ++ close_text ++ " found"

/-- The category a line falls into for one matcher instantiation, following
the priority order of the scan of `Puml::validate_open_close`: open first,
then middle (when supplied), then close, else other. -/
inductive Tok where
  | opn : Tok
  | midl : Tok
  | clos : Tok
  | other : Tok
deriving DecidableEq

/-- Classify one (already trimmed) line for a matcher instantiation, in the
test order of the scan loop (`puml_validator.rs:152-180`): the open pattern is
tried first, then the middle pattern when one was supplied, then the close
pattern; only the first match applies, thanks to the `continue`s. -/
def classify (op : String → Bool) (mid : Option (String → Bool))
    (cl : String → Bool) (l : String) : Tok :=
  if op l then .opn
  else if (match mid with | some m => m l | none => false) then .midl
  else if cl l then .clos
  else .other

/-- The scan loop of `Puml::validate_open_close` (`puml_validator.rs:150-181`),
started at line index `n` with Opening Stack `stack` (most recent push at the
head; the Rust `Vec` pushes/pops at the back).  Returns the diagnostics pushed
during the scan (in emission order) and the final Opening Stack.
Per line (after trimming): an open match pushes the index and continues; a
middle match (when a middle pattern is supplied) emits a "no opening"
diagnostic iff the stack is empty, and continues; a close match pops, or
emits a "no opening" diagnostic when the stack is empty; any other line is
ignored. -/
def scanOpenClose (op : String → Bool) (mid : Option (String → Bool))
    (cl : String → Bool) (open_text : String) :
    Nat → List Nat → List String → List PumlErr × List Nat
  | _, stack, [] => ([], stack)
  | n, stack, line :: rest =>
    match classify op mid cl (trimS line) with
    | .opn => scanOpenClose op mid cl open_text (n + 1) (n :: stack) rest
    | .midl =>
      let r := scanOpenClose op mid cl open_text (n + 1) stack rest
      ((if stack.isEmpty then [⟨n, noOpeningMsg open_text⟩] else []) ++ r.1, r.2)
    | .clos =>
      match stack with
      | _ :: stack2 => scanOpenClose op mid cl open_text (n + 1) stack2 rest
      | [] =>
        let r := scanOpenClose op mid cl open_text (n + 1) [] rest
        (⟨n, noOpeningMsg open_text⟩ :: r.1, r.2)
    | .other => scanOpenClose op mid cl open_text (n + 1) stack rest

/-- All diagnostics of one `Puml::validate_open_close` call over `lines`:
first the scan diagnostics, then one "no closing" diagnostic per line index
still resident in the Opening Stack, in insertion order (`puml_validator.rs:183-188`;
`Vec` iteration is front-to-back, i.e. the reverse of the cons-side stack). -/
def blockErrs (op : String → Bool) (mid : Option (String → Bool))
    (cl : String → Bool) (open_text close_text : String)
    (lines : List String) : List PumlErr :=
  (scanOpenClose op mid cl open_text 0 [] lines).1
    ++ (scanOpenClose op mid cl open_text 0 [] lines).2.reverse.map
        (fun x => ⟨x, noClosingMsg close_text⟩)

/-- Method `Puml::validate_open_close`: append the matcher's diagnostics to
`errors`. -/
def Puml.validate_open_close (p : Puml) (op : String → Bool)
    (mid : Option (String → Bool)) (cl : String → Bool)
    (open_text close_text : String) : Puml :=
  { p with errors := p.errors ++ blockErrs op mid cl open_text close_text p.lines }

/-! ### `Puml::validate` -/

/-- The comparator of the final `sort_by` on `line_number`; Rust
`slice::sort_by` is a stable sort, modelled as `List.mergeSort` with this
`le`. -/
def errLE (a b : PumlErr) : Bool := a.line_number ≤ b.line_number

/-- Message of the first (missing-`:`) rule. -/
def missingColonMsg : String :=
  "missing ':' at the beginning of the line (doesnt check multiline)"

/-- Message of the second (missing-`;`) rule. -/
def missingSemiMsg : String :=
  "missing ';' at the end of the line (doesnt check multiline)"

/-- Method `Puml::validate` (`puml_validator.rs:27-99`): the two pattern rules, the
six open/close matcher instantiations, then the stable sort by line number. -/
def Puml.validate (p : Puml) : Puml :=
  let q :=
    ((((((((p.validate_pattern mSemiEnd mColonSemi missingColonMsg
      ).validate_pattern mColon mColonSemiEnd missingSemiMsg
      ).validate_open_close mIfOpen (some mIfMiddle) mIfClose
          "if (*) then (*)" "endif"
      ).validate_open_close mSwitchOpen (some mCaseMiddle) mSwitchClose
          "switch (*)" "endswitch"
      ).validate_open_close mRepeatOpen none mRepeatClose
          "repeat" "repeat while (*) is (*)"
      ).validate_open_close mWhileOpen none mWhileClose
          "while (*) [is (*)]" "endwhile [(*)]"
      ).validate_open_close mForkOpen (some mForkMiddle) mForkClose
          "fork" "end fork|end merge"
      ).validate_open_close mSplitOpen (some mSplitMiddle) mSplitClose
          "split" "end split")
  { q with errors := q.errors.mergeSort errLE }

/-! ### The rule/matcher inventory of `Puml::validate` -/

/-- A pattern rule: trigger pattern, validation pattern, message. -/
structure PatternRule where
  simple : String → Bool
  validation : String → Bool
  msg : String

/-- A block construct: open pattern, optional middle pattern, close pattern,
and the two display labels. -/
structure BlockSpec where
  op : String → Bool
  mid : Option (String → Bool)
  cl : String → Bool
  open_text : String
  close_text : String

/-- The two pattern rules run by `Puml::validate`, in invocation order. -/
def patternSpecs : List PatternRule :=
  [⟨mSemiEnd, mColonSemi, missingColonMsg⟩,
   ⟨mColon, mColonSemiEnd, missingSemiMsg⟩]

/-- The six block-matcher instantiations run by `Puml::validate`, in
invocation order. -/
def blockSpecs : List BlockSpec :=
  [⟨mIfOpen, some mIfMiddle, mIfClose, "if (*) then (*)", "endif"⟩,
   ⟨mSwitchOpen, some mCaseMiddle, mSwitchClose, "switch (*)", "endswitch"⟩,
   ⟨mRepeatOpen, none, mRepeatClose, "repeat", "repeat while (*) is (*)"⟩,
   ⟨mWhileOpen, none, mWhileClose, "while (*) [is (*)]", "endwhile [(*)]"⟩,
   ⟨mForkOpen, some mForkMiddle, mForkClose, "fork", "end fork|end merge"⟩,
   ⟨mSplitOpen, some mSplitMiddle, mSplitClose, "split", "end split"⟩]

/-- The diagnostics of one section, in emission order (before the final
sort): the concatenation of the outputs of the two pattern rules followed by
the outputs of the six block-matcher instantiations. -/
def sectionDiags (lines : List String) : List PumlErr :=
  (patternSpecs.map fun r => patternErrs r.simple r.validation r.msg 0 lines).flatten
    ++ (blockSpecs.map fun b =>
        blockErrs b.op b.mid b.cl b.open_text b.close_text lines).flatten

/-! ### Section extraction (`PumlFile::new`) -/

/-- The mutable state of the extraction loop of `PumlFile::new`. -/
structure ParseState where
  reading_uml : Bool
  buf : Puml
  pumls : List Puml
deriving DecidableEq

/-- One iteration of the loop of `PumlFile::new` (`puml_validator.rs:214-267`)
on the line with index `n`.  `none` models the `return None` branches (the
file is skipped and a message is printed to the error channel): a line
starting with `@enduml` while no section is open, or a line starting with
`@startuml` while a section is already open. -/
def processLine (n : Nat) (line : String) (st : ParseState) : Option ParseState :=
  let l := trimS line
  let step1 : Option ParseState :=
    if startsWithS l "@enduml" then
      if st.reading_uml then
        some ⟨false, Puml.new, st.pumls ++ [st.buf]⟩
      else none
    else some st
  match step1 with
  | none => none
  | some s1 =>
    let s2 := if s1.reading_uml
      then { s1 with buf := { s1.buf with lines := s1.buf.lines ++ [l] } }
      else s1
    if startsWithS l "@startuml" then
      if !s2.reading_uml then
        some { s2 with reading_uml := true,
                       buf := { s2.buf with starting_line := n } }
      else none
    else some s2

/-- The extraction loop over the remaining lines, the first carrying index
`n`. -/
def parsePumls : List String → Nat → ParseState → Option ParseState
  | [], _, st => some st
  | line :: rest, n, st =>
    match processLine n line st with
    | none => none
    | some st2 => parsePumls rest (n + 1) st2

/-- Model of `PumlFile::new` on the lines of a file's content: the list of extracted
sections, or `none` when the file is skipped with an error-channel message.
A trailing buffer still open at end of input is dropped. -/
def extractPumls (content : List String) : Option (List Puml) :=
  (parsePumls content 0 ⟨false, Puml.new, []⟩).map (·.pumls)

/-! ### Balance of a section (for the Block Matcher claims) -/

/-- Balance of a token sequence at nesting depth `d`: every open has exactly
one matching close, and middle tokens occur only strictly inside an
open/close pair (depth positive).  ("Balanced" means balance at depth 0.) -/
def balancedTokens : List Tok → Nat → Bool
  | [], d => d == 0
  | t :: ts, d =>
    match t with
    | .opn => balancedTokens ts (d + 1)
    | .midl => decide (0 < d) && balancedTokens ts d
    | .clos => decide (0 < d) && balancedTokens ts (d - 1)
    | .other => balancedTokens ts d

/-! ### Structural lemmas about `Puml.validate` -/

/-- Method `Puml::validate` appends, to the pre-existing errors, the diagnostics of
the two pattern rules and the six block matchers in invocation order, and
finally stable-sorts everything by line number. -/
lemma Puml.validate_def (p : Puml) :
    p.validate =
      { p with errors := (p.errors ++ sectionDiags p.lines).mergeSort errLE } := by
  simp [Puml.validate, Puml.validate_pattern, Puml.validate_open_close,
    sectionDiags, patternSpecs, blockSpecs, List.append_assoc]

/-- Method `Puml::validate` does not touch the section's lines. -/
lemma Puml.lines_validate (p : Puml) : p.validate.lines = p.lines := by
  rw [p.validate_def]

/-- The sorted error list of a validated section. -/
lemma Puml.errors_validate (p : Puml) :
    p.validate.errors = (p.errors ++ sectionDiags p.lines).mergeSort errLE := by
  rw [p.validate_def]

/-! ### Lemmas about `patternErrs` -/

/-- Every diagnostic of a pattern-rule run over lines starting at index `n`
has a line index in `[n, n + number of lines)`, carries the rule's message,
and its line satisfies the trigger but not the validation pattern. -/
lemma patternErrs_mem {simple validation : String → Bool} {msg : String} :
    ∀ (ls : List String) (n : Nat) (e : PumlErr),
      e ∈ patternErrs simple validation msg n ls →
      n ≤ e.line_number ∧ e.line_number < n + ls.length ∧
        e.msg = "<- " ++ msg ∧
        ∃ l, ls.get? (e.line_number - n) = some l ∧
          simple (trimS l) = true ∧ validation (trimS l) = false
  | [], n, e => by simp [patternErrs]
  | line :: rest, n, e => by
    intro he
    rw [patternErrs] at he
    rcases List.mem_append.mp he with h | h
    · by_cases hc : simple (trimS line) && !(validation (trimS line))
      · rw [if_pos hc] at h
        simp only [List.mem_singleton] at h
        subst h
        simp only [Bool.and_eq_true, Bool.not_eq_true'] at hc
        refine ⟨Nat.le_refl n, by simp, rfl, line, ?_, hc.1, hc.2⟩
        simp
      · rw [if_neg hc] at h
        simp at h
    · obtain ⟨h1, h2, h3, l, hl, hsv⟩ := patternErrs_mem rest (n + 1) e h
      refine ⟨Nat.le_of_succ_le h1, by simp only [List.length_cons]; omega,
        h3, l, ?_, hsv⟩
      have hd : e.line_number - n = (e.line_number - (n + 1)) + 1 := by omega
      rw [hd]
      simpa using hl

/-- Exactly-one/zero counting for one pattern rule: the number of diagnostics
the rule emits at the index of line `i` is one when the trimmed line matches
the trigger but not the validation pattern, and zero otherwise. -/
lemma patternErrs_countP {simple validation : String → Bool} {msg : String} :
    ∀ (ls : List String) (n i : Nat) (hi : i < ls.length),
      (patternErrs simple validation msg n ls).countP
          (fun e => e.line_number == n + i) =
        if simple (trimS (ls.get ⟨i, hi⟩)) && !(validation (trimS (ls.get ⟨i, hi⟩)))
        then 1 else 0
  | [], _, i, hi => by simp at hi
  | line :: rest, n, 0, hi => by
    rw [patternErrs, List.countP_append]
    have hz : (patternErrs simple validation msg (n + 1) rest).countP
        (fun e => e.line_number == n + 0) = 0 := by
      rw [List.countP_eq_zero]
      intro e he
      have := (patternErrs_mem rest (n + 1) e he).1
      simp only [beq_iff_eq]
      omega
    rw [hz, Nat.add_zero]
    have hg : (line :: rest).get ⟨0, hi⟩ = line := rfl
    rw [hg]
    by_cases hc : simple (trimS line) && !(validation (trimS line))
    · simp [hc, List.countP_cons]
    · simp [hc]
  | line :: rest, n, i + 1, hi => by
    rw [patternErrs, List.countP_append]
    have hz : (if simple (trimS line) && !(validation (trimS line))
        then [(⟨n, "<- " ++ msg⟩ : PumlErr)] else []).countP
          (fun e => e.line_number == n + (i + 1)) = 0 := by
      split <;> simp
    rw [hz, Nat.zero_add]
    have hr := @patternErrs_countP simple validation msg rest (n + 1) i
      (by simpa using hi)
    have harith : n + 1 + i = n + (i + 1) := by omega
    rw [harith] at hr
    exact hr

/-! ### Lemmas about `scanOpenClose` -/

/-- A line classified as an open matches the open pattern. -/
lemma classify_opn_op {op : String → Bool} {mid : Option (String → Bool)}
    {cl : String → Bool} {l : String} (h : classify op mid cl l = .opn) :
    op l = true := by
  unfold classify at h
  split at h
  · assumption
  · split at h
    · exact Tok.noConfusion h
    · split at h
      · exact Tok.noConfusion h
      · exact Tok.noConfusion h

/-- A line not classified as an open does not match the open pattern. -/
lemma classify_ne_opn_op {op : String → Bool} {mid : Option (String → Bool)}
    {cl : String → Bool} {l : String} (h : classify op mid cl l ≠ .opn) :
    op l = false := by
  by_cases hb : op l
  · exact absurd (by simp [classify, hb]) h
  · simp [hb]

/-- Index shift for `get?` under a cons, for indices relative to a start
line `n`. -/
lemma getq_shift (line : String) (rest : List String) (k n : Nat)
    (h : n + 1 ≤ k) :
    (line :: rest).get? (k - n) = rest.get? (k - (n + 1)) := by
  have hk : k - n = (k - (n + 1)) + 1 := by omega
  rw [hk]
  rfl

/-- Decomposition of the scan over an append: scan the first part, then
continue from its final stack with the line counter advanced. -/
lemma scanOC_append (op : String → Bool) (mid : Option (String → Bool))
    (cl : String → Bool) (t : String) :
    ∀ (xs ys : List String) (n : Nat) (stack : List Nat),
      scanOpenClose op mid cl t n stack (xs ++ ys) =
        ((scanOpenClose op mid cl t n stack xs).1 ++
           (scanOpenClose op mid cl t (n + xs.length)
             (scanOpenClose op mid cl t n stack xs).2 ys).1,
         (scanOpenClose op mid cl t (n + xs.length)
           (scanOpenClose op mid cl t n stack xs).2 ys).2)
  | [], ys, n, stack => by simp [scanOpenClose]
  | x :: xs, ys, n, stack => by
    have ha : n + (x :: xs).length = (n + 1) + xs.length := by
      simp only [List.length_cons]
      omega
    rw [List.cons_append]
    cases hc : classify op mid cl (trimS x) with
    | opn =>
      simp only [scanOpenClose, hc, ha]
      exact scanOC_append op mid cl t xs ys (n + 1) (n :: stack)
    | midl =>
      simp only [scanOpenClose, hc, ha]
      rw [scanOC_append op mid cl t xs ys (n + 1) stack]
      simp [List.append_assoc]
    | clos =>
      cases stack with
      | nil =>
        simp only [scanOpenClose, hc, ha]
        rw [scanOC_append op mid cl t xs ys (n + 1) []]
        simp
      | cons y stack2 =>
        simp only [scanOpenClose, hc, ha]
        exact scanOC_append op mid cl t xs ys (n + 1) stack2
    | other =>
      simp only [scanOpenClose, hc, ha]
      exact scanOC_append op mid cl t xs ys (n + 1) stack

/-- Invariant of the scan loop, for a start index `n` dominating every entry
of the incoming stack: every scan diagnostic lies in `[n, n + length)`,
carries the "no opening" message and sits at a line that does not match the
open pattern; every entry of the final stack either was already on the stack
or is the index of a line matching the open pattern; and the stack stays
strictly decreasing from its head. -/
lemma scanOC_inv (op : String → Bool) (mid : Option (String → Bool))
    (cl : String → Bool) (t : String) :
    ∀ (ls : List String) (n : Nat) (stack : List Nat),
      (∀ x ∈ stack, x < n) → stack.Pairwise (fun a b => b < a) →
      (∀ e ∈ (scanOpenClose op mid cl t n stack ls).1,
          n ≤ e.line_number ∧ e.line_number < n + ls.length ∧
          e.msg = noOpeningMsg t ∧
          ∃ l, ls.get? (e.line_number - n) = some l ∧ op (trimS l) = false) ∧
      (∀ x ∈ (scanOpenClose op mid cl t n stack ls).2,
          x ∈ stack ∨ (n ≤ x ∧ x < n + ls.length ∧
            ∃ l, ls.get? (x - n) = some l ∧ op (trimS l) = true)) ∧
      (scanOpenClose op mid cl t n stack ls).2.Pairwise (fun a b => b < a)
  | [], n, stack => by
    intro h1 h2
    refine ⟨by simp [scanOpenClose], ?_, by simpa [scanOpenClose] using h2⟩
    intro x hx
    exact Or.inl (by simpa [scanOpenClose] using hx)
  | line :: rest, n, stack => by
    intro h1 h2
    cases hc : classify op mid cl (trimS line) with
    | opn =>
      have h1' : ∀ x ∈ n :: stack, x < n + 1 := by
        intro x hx
        rcases List.mem_cons.mp hx with h | h
        · omega
        · exact Nat.lt_succ_of_lt (h1 x h)
      have h2' : (n :: stack).Pairwise (fun a b => b < a) :=
        List.pairwise_cons.mpr ⟨h1, h2⟩
      obtain ⟨ih1, ih2, ih3⟩ := scanOC_inv op mid cl t rest (n + 1) (n :: stack) h1' h2'
      simp only [scanOpenClose, hc]
      refine ⟨?_, ?_, ih3⟩
      · intro e he
        obtain ⟨e1, e2, e3, l, hl, hop⟩ := ih1 e he
        exact ⟨by omega, by simp only [List.length_cons]; omega, e3,
          l, by rw [getq_shift line rest _ n e1]; exact hl, hop⟩
      · intro x hx
        rcases ih2 x hx with h | h
        · rcases List.mem_cons.mp h with h | h
          · subst h
            refine Or.inr ⟨Nat.le_refl x, by simp, line, by simp, classify_opn_op hc⟩
          · exact Or.inl h
        · obtain ⟨x1, x2, l, hl, hop⟩ := h
          exact Or.inr ⟨by omega, by simp only [List.length_cons]; omega,
            l, by rw [getq_shift line rest _ n x1]; exact hl, hop⟩
    | midl =>
      have h1' : ∀ x ∈ stack, x < n + 1 := fun x hx => Nat.lt_succ_of_lt (h1 x hx)
      obtain ⟨ih1, ih2, ih3⟩ := scanOC_inv op mid cl t rest (n + 1) stack h1' h2
      simp only [scanOpenClose, hc]
      refine ⟨?_, ?_, ih3⟩
      · intro e he
        rcases List.mem_append.mp he with h | h
        · have he' : e = ⟨n, noOpeningMsg t⟩ := by
            rcases List.mem_ite_nil_right.mp h with ⟨-, h⟩
            simpa using h
          subst he'
          exact ⟨Nat.le_refl n, by simp, rfl, line, by simp,
            @classify_ne_opn_op op mid cl (trimS line) (by simp [hc])⟩
        · obtain ⟨e1, e2, e3, l, hl, hop⟩ := ih1 e h
          exact ⟨by omega, by simp only [List.length_cons]; omega, e3,
            l, by rw [getq_shift line rest _ n e1]; exact hl, hop⟩
      · intro x hx
        rcases ih2 x hx with h | h
        · exact Or.inl h
        · obtain ⟨x1, x2, l, hl, hop⟩ := h
          exact Or.inr ⟨by omega, by simp only [List.length_cons]; omega,
            l, by rw [getq_shift line rest _ n x1]; exact hl, hop⟩
    | clos =>
      cases stack with
      | nil =>
        obtain ⟨ih1, ih2, ih3⟩ := scanOC_inv op mid cl t rest (n + 1) []
          (by simp) List.Pairwise.nil
        simp only [scanOpenClose, hc]
        refine ⟨?_, ?_, ih3⟩
        · intro e he
          rcases List.mem_cons.mp he with h | h
          · subst h
            exact ⟨Nat.le_refl n, by simp, rfl, line, by simp,
              @classify_ne_opn_op op mid cl (trimS line) (by simp [hc])⟩
          · obtain ⟨e1, e2, e3, l, hl, hop⟩ := ih1 e h
            exact ⟨by omega, by simp only [List.length_cons]; omega, e3,
              l, by rw [getq_shift line rest _ n e1]; exact hl, hop⟩
        · intro x hx
          rcases ih2 x hx with h | h
          · simp at h
          · obtain ⟨x1, x2, l, hl, hop⟩ := h
            exact Or.inr ⟨by omega, by simp only [List.length_cons]; omega,
              l, by rw [getq_shift line rest _ n x1]; exact hl, hop⟩
      | cons y stack2 =>
        have h1' : ∀ x ∈ stack2, x < n + 1 :=
          fun x hx => Nat.lt_succ_of_lt (h1 x (List.mem_cons_of_mem y hx))
        obtain ⟨ih1, ih2, ih3⟩ := scanOC_inv op mid cl t rest (n + 1) stack2 h1'
          (List.pairwise_cons.mp h2).2
        simp only [scanOpenClose, hc]
        refine ⟨?_, ?_, ih3⟩
        · intro e he
          obtain ⟨e1, e2, e3, l, hl, hop⟩ := ih1 e he
          exact ⟨by omega, by simp only [List.length_cons]; omega, e3,
            l, by rw [getq_shift line rest _ n e1]; exact hl, hop⟩
        · intro x hx
          rcases ih2 x hx with h | h
          · exact Or.inl (List.mem_cons_of_mem y h)
          · obtain ⟨x1, x2, l, hl, hop⟩ := h
            exact Or.inr ⟨by omega, by simp only [List.length_cons]; omega,
              l, by rw [getq_shift line rest _ n x1]; exact hl, hop⟩
    | other =>
      have h1' : ∀ x ∈ stack, x < n + 1 := fun x hx => Nat.lt_succ_of_lt (h1 x hx)
      obtain ⟨ih1, ih2, ih3⟩ := scanOC_inv op mid cl t rest (n + 1) stack h1' h2
      simp only [scanOpenClose, hc]
      refine ⟨?_, ?_, ih3⟩
      · intro e he
        obtain ⟨e1, e2, e3, l, hl, hop⟩ := ih1 e he
        exact ⟨by omega, by simp only [List.length_cons]; omega, e3,
          l, by rw [getq_shift line rest _ n e1]; exact hl, hop⟩
      · intro x hx
        rcases ih2 x hx with h | h
        · exact Or.inl h
        · obtain ⟨x1, x2, l, hl, hop⟩ := h
          exact Or.inr ⟨by omega, by simp only [List.length_cons]; omega,
            l, by rw [getq_shift line rest _ n x1]; exact hl, hop⟩

/-! ### Stability of the final sort -/

/-- The sort comparator is transitive. -/
lemma errLE_trans : ∀ a b c : PumlErr, errLE a b → errLE b c → errLE a c := by
  intro a b c hab hbc
  simp only [errLE, decide_eq_true_eq] at hab hbc ⊢
  omega

/-- The sort comparator is total. -/
lemma errLE_total : ∀ a b : PumlErr, errLE a b || errLE b a := by
  intro a b
  simp only [errLE, Bool.or_eq_true, decide_eq_true_eq]
  omega

/-- Stability of the stable sort, per line index: the diagnostics at any
fixed line index come out of the sort in exactly their original relative
order. -/
lemma mergeSort_filter_line (l : List PumlErr) (k : Nat) :
    (l.mergeSort errLE).filter (fun e => e.line_number == k) =
      l.filter (fun e => e.line_number == k) := by
  have hall : ∀ a ∈ l.filter (fun e => e.line_number == k),
      ∀ b ∈ l.filter (fun e => e.line_number == k), errLE a b := by
    intro a ha b hb
    have ha' := (List.mem_filter.mp ha).2
    have hb' := (List.mem_filter.mp hb).2
    simp only [beq_iff_eq] at ha' hb'
    simp [errLE, ha', hb']
  have hpw : (l.filter (fun e => e.line_number == k)).Pairwise
      (fun a b => errLE a b) :=
    List.pairwise_of_forall_mem_list hall
  have hsub : List.Sublist (l.filter (fun e => e.line_number == k))
      (l.mergeSort errLE) :=
    List.sublist_mergeSort errLE_trans errLE_total hpw (List.filter_sublist l)
  have hsub2 : List.Sublist (l.filter (fun e => e.line_number == k))
      ((l.mergeSort errLE).filter (fun e => e.line_number == k)) := by
    have heq : (l.filter (fun e => e.line_number == k)).filter
        (fun e => e.line_number == k) = l.filter (fun e => e.line_number == k) :=
      List.filter_eq_self.mpr (fun a ha => (List.mem_filter.mp ha).2)
    have := hsub.filter (fun e => e.line_number == k)
    rwa [heq] at this
  have hlen : ((l.mergeSort errLE).filter (fun e => e.line_number == k)).length =
      (l.filter (fun e => e.line_number == k)).length :=
    ((List.mergeSort_perm l errLE).filter _).length_eq
  exact (hsub2.eq_of_length hlen.symm).symm

/-! ### Lemmas about section extraction -/

/-- Decomposition of the extraction loop over an append. -/
lemma parsePumls_append :
    ∀ (xs ys : List String) (n : Nat) (st : ParseState),
      parsePumls (xs ++ ys) n st =
        (parsePumls xs n st).bind (fun st2 => parsePumls ys (n + xs.length) st2)
  | [], ys, n, st => by simp [parsePumls]
  | x :: xs, ys, n, st => by
    rw [List.cons_append]
    cases hp : processLine n x st with
    | none => simp [parsePumls, hp]
    | some st2 =>
      simp only [parsePumls, hp]
      rw [parsePumls_append xs ys (n + 1) st2]
      have ha : n + (x :: xs).length = n + 1 + xs.length := by
        simp only [List.length_cons]
        omega
      rw [ha]

/-- While a section is open, lines that start with neither delimiter are
only buffered: the extraction loop succeeds and the list of completed
sections is unchanged. -/
lemma parsePumls_noDelim :
    ∀ (tail : List String) (n : Nat) (st : ParseState),
      st.reading_uml = true →
      (∀ l ∈ tail, startsWithS (trimS l) "@enduml" = false ∧
          startsWithS (trimS l) "@startuml" = false) →
      ∃ st2, parsePumls tail n st = some st2 ∧ st2.pumls = st.pumls
  | [], n, st => by
    intro hr _
    exact ⟨st, rfl, rfl⟩
  | line :: rest, n, st => by
    intro hr hno
    obtain ⟨hne, hns⟩ := hno line (List.mem_cons_self line rest)
    have hstep : processLine n line st =
        some { st with buf := { st.buf with lines := st.buf.lines ++ [trimS line] } } := by
      simp [processLine, hne, hns, hr]
    rw [parsePumls, hstep]
    obtain ⟨st2, hst2, hp⟩ := parsePumls_noDelim rest (n + 1)
      { st with buf := { st.buf with lines := st.buf.lines ++ [trimS line] } }
      hr (fun l hl => hno l (List.mem_cons_of_mem line hl))
    exact ⟨st2, hst2, hp⟩

/-! ### The scan on balanced input -/

/-- On a section whose token sequence is balanced at depth equal to the
incoming stack height, the scan emits no diagnostic and finishes with an
empty stack. -/
lemma scanOC_balanced (op : String → Bool) (mid : Option (String → Bool))
    (cl : String → Bool) (t : String) :
    ∀ (ls : List String) (n : Nat) (stack : List Nat),
      balancedTokens (ls.map (fun l => classify op mid cl (trimS l)))
        stack.length = true →
      scanOpenClose op mid cl t n stack ls = ([], [])
  | [], n, stack => by
    intro h
    simp only [List.map_nil, balancedTokens, beq_iff_eq] at h
    have hst : stack = [] := List.eq_nil_of_length_eq_zero h
    subst hst
    rfl
  | line :: rest, n, stack => by
    intro h
    cases hc : classify op mid cl (trimS line) with
    | opn =>
      simp only [List.map_cons, hc, balancedTokens] at h
      simp only [scanOpenClose, hc]
      exact scanOC_balanced op mid cl t rest (n + 1) (n :: stack) (by simpa using h)
    | midl =>
      simp only [List.map_cons, hc, balancedTokens, Bool.and_eq_true,
        decide_eq_true_eq] at h
      have hne : stack.isEmpty = false := by
        cases stack with
        | nil => simp at h
        | cons y s => rfl
      simp only [scanOpenClose, hc, hne]
      rw [scanOC_balanced op mid cl t rest (n + 1) stack h.2]
      simp
    | clos =>
      simp only [List.map_cons, hc, balancedTokens, Bool.and_eq_true,
        decide_eq_true_eq] at h
      cases stack with
      | nil => simp at h
      | cons y stack2 =>
        simp only [scanOpenClose, hc]
        exact scanOC_balanced op mid cl t rest (n + 1) stack2 (by simpa using h.2)
    | other =>
      simp only [List.map_cons, hc, balancedTokens] at h
      simp only [scanOpenClose, hc]
      exact scanOC_balanced op mid cl t rest (n + 1) stack h

/-! ### Claim theorems -/

/-- Claim C1: for every Block Matcher instantiation (hence in particular the
six instantiations used by `Puml::validate`) and every section whose lines
are balanced with respect to that construct — every open line has exactly
one matching close line and middle lines occur only between a matching
open/close pair, captured by `balancedTokens` at depth 0 over the lines'
classification — the matcher emits zero diagnostics and its Opening Stack is
empty when the scan ends. -/
theorem claim1_balanced_matcher_silent (op : String → Bool)
    (mid : Option (String → Bool)) (cl : String → Bool) (t ct : String)
    (lines : List String)
    (h : balancedTokens (lines.map (fun l => classify op mid cl (trimS l))) 0
        = true) :
    blockErrs op mid cl t ct lines = [] ∧
    (scanOpenClose op mid cl t 0 [] lines).2 = [] := by
  have hs := scanOC_balanced op mid cl t lines 0 [] (by simpa using h)
  constructor
  · rw [blockErrs, hs]
    simp
  · rw [hs]

/-- Witness for C1 at the switch instantiation over the balanced section
`["switch (x)", "case (1)", "endswitch"]`. -/
theorem claim1_balanced_matcher_silent_witness :
    balancedTokens ((["switch (x)", "case (1)", "endswitch"]).map
        (fun l => classify mSwitchOpen (some mCaseMiddle) mSwitchClose (trimS l)))
      0 = true ∧
    blockErrs mSwitchOpen (some mCaseMiddle) mSwitchClose "switch (*)" "endswitch"
      ["switch (x)", "case (1)", "endswitch"] = [] ∧
    (scanOpenClose mSwitchOpen (some mCaseMiddle) mSwitchClose "switch (*)" 0 []
      ["switch (x)", "case (1)", "endswitch"]).2 = [] :=
  ⟨by decide,
   (claim1_balanced_matcher_silent mSwitchOpen (some mCaseMiddle) mSwitchClose
      "switch (*)" "endswitch" ["switch (x)", "case (1)", "endswitch"]
      (by decide)).1,
   (claim1_balanced_matcher_silent mSwitchOpen (some mCaseMiddle) mSwitchClose
      "switch (*)" "endswitch" ["switch (x)", "case (1)", "endswitch"]
      (by decide)).2⟩

/-- Claim C2: for any trigger pattern, validation pattern and message, and
any line of the input, the Pattern Rule Engine emits exactly one diagnostic
at that line's index when the trimmed line matches the trigger pattern but
not the validation pattern, and zero diagnostics for that line when it
matches both or neither. -/
theorem claim2_pattern_rule_count (simple validation : String → Bool)
    (msg : String) (lines : List String) (i : Nat) (hi : i < lines.length) :
    (patternErrs simple validation msg 0 lines).countP
        (fun e => e.line_number == i) =
      if simple (trimS (lines.get ⟨i, hi⟩)) &&
          !(validation (trimS (lines.get ⟨i, hi⟩))) then 1 else 0 := by
  have h := @patternErrs_countP simple validation msg lines 0 i hi
  simpa using h

/-- Witness for C2: the missing-`;` rule on the one-line section `[":foo"]`
emits exactly one diagnostic at index 0. -/
theorem claim2_pattern_rule_count_witness :
    0 < ([":foo"] : List String).length ∧
    (patternErrs mColon mColonSemiEnd missingSemiMsg 0 [":foo"]).countP
        (fun e => e.line_number == 0) = 1 := by
  refine ⟨by decide, ?_⟩
  rw [claim2_pattern_rule_count mColon mColonSemiEnd missingSemiMsg [":foo"] 0
    (by decide)]
  decide

/-- Claim C8: under the two concrete terminator rules, `":foo;"` produces
zero diagnostics from both rules; `"foo;"` produces exactly one diagnostic,
from the missing-prefix (missing-`:`) rule; `":foo"` produces exactly one
diagnostic, from the missing-terminator (missing-`;`) rule. -/
theorem claim8_terminator_rule_scenarios :
    patternErrs mSemiEnd mColonSemi missingColonMsg 0 [":foo;"] = [] ∧
    patternErrs mColon mColonSemiEnd missingSemiMsg 0 [":foo;"] = [] ∧
    patternErrs mSemiEnd mColonSemi missingColonMsg 0 ["foo;"] =
      [⟨0, "<- " ++ missingColonMsg⟩] ∧
    patternErrs mColon mColonSemiEnd missingSemiMsg 0 ["foo;"] = [] ∧
    patternErrs mSemiEnd mColonSemi missingColonMsg 0 [":foo"] = [] ∧
    patternErrs mColon mColonSemiEnd missingSemiMsg 0 [":foo"] =
      [⟨0, "<- " ++ missingSemiMsg⟩] := by
  decide

/-- Counterexample for C5: `Puml::validate` does not run seven Block Matcher
instantiations — the source contains exactly six `validate_open_close`
calls. -/
theorem claim5_counterexample : ¬ (blockSpecs.length = 7) := by decide

/-- Claim C5 (amended): validating one section runs exactly the two Pattern
Rule Engine rules and the SIX Block Matcher instantiations, and the
section's diagnostic collection before the final sort is exactly the
concatenation, in invocation order, of the diagnostics those invocations
produce (`sectionDiags`). -/
theorem claim5_validate_structure (p : Puml) :
    patternSpecs.length = 2 ∧ blockSpecs.length = 6 ∧
    p.validate =
      { p with errors := (p.errors ++ sectionDiags p.lines).mergeSort errLE } :=
  ⟨rfl, rfl, p.validate_def⟩

/-- Claim C6: after validation the section's diagnostics are sorted by line
index ascending, and the sort is stable — at every line index the
diagnostics keep exactly their relative emission order (the pre-sort
concatenation `p.errors ++ sectionDiags p.lines`). -/
theorem claim6_sorted_stable (p : Puml) :
    (p.validate).errors.Pairwise (fun a b => a.line_number ≤ b.line_number) ∧
    ∀ k, (p.validate).errors.filter (fun e => e.line_number == k) =
      (p.errors ++ sectionDiags p.lines).filter (fun e => e.line_number == k) := by
  constructor
  · rw [Puml.errors_validate]
    exact (List.sorted_mergeSort errLE_trans errLE_total _).imp
      (fun h => by simpa [errLE] using h)
  · intro k
    rw [Puml.errors_validate]
    exact mergeSort_filter_line _ k

/-- Counterexample for C7: validation is not idempotent in the stated sense.
On the section `[":foo"]`, a first call of `validate` yields one diagnostic
but a second call on the result appends a fresh copy, yielding two: the two
lists differ. -/
theorem claim7_counterexample :
    (((Puml.mk 0 [":foo"] []).validate).validate).errors ≠
      ((Puml.mk 0 [":foo"] []).validate).errors := by
  have h1 : ((Puml.mk 0 [":foo"] []).validate).errors.length = 1 := by
    rw [Puml.errors_validate, List.length_mergeSort]
    decide
  have h2 : (((Puml.mk 0 [":foo"] []).validate).validate).errors.length = 2 := by
    rw [Puml.errors_validate, List.length_mergeSort, List.length_append,
      Puml.lines_validate, h1]
    decide
  intro h
  have hl := congrArg List.length h
  rw [h1, h2] at hl
  exact absurd hl (by decide)

/-- Claim C7 (amended): validation is a pure, deterministic function of the
section value and leaves the lines untouched, but a second invocation of
`validate` is not a no-op: it appends a fresh copy of every diagnostic
before re-sorting, so for a section with no prior errors the diagnostic
list after the second invocation has exactly twice the length of the list
after the first (the two lists coincide only when there are no
diagnostics). -/
theorem claim7_pure_not_idempotent (p : Puml) (h : p.errors = []) :
    (p.validate).lines = p.lines ∧
    ((p.validate).validate).errors.length = 2 * (p.validate).errors.length := by
  refine ⟨p.lines_validate, ?_⟩
  simp only [Puml.errors_validate, Puml.lines_validate, List.length_mergeSort,
    List.length_append, h, List.length_nil]
  omega

/-- Witness for C7 (amended) on the section `[":foo"]`. -/
theorem claim7_pure_not_idempotent_witness :
    (Puml.mk 0 [":foo"] []).errors = [] ∧
    (((Puml.mk 0 [":foo"] []).validate).lines = [":foo"] ∧
      (((Puml.mk 0 [":foo"] []).validate).validate).errors.length =
        2 * ((Puml.mk 0 [":foo"] []).validate).errors.length) :=
  ⟨rfl, claim7_pure_not_idempotent (Puml.mk 0 [":foo"] []) rfl⟩

/-- Every diagnostic of one block-matcher run lies strictly below the number
of lines of the section. -/
lemma blockErrs_mem_lt (op : String → Bool) (mid : Option (String → Bool))
    (cl : String → Bool) (t ct : String) (lines : List String) (e : PumlErr)
    (he : e ∈ blockErrs op mid cl t ct lines) :
    e.line_number < lines.length := by
  obtain ⟨inv1, inv2, -⟩ := scanOC_inv op mid cl t lines 0 [] (by simp)
    List.Pairwise.nil
  rcases List.mem_append.mp he with h | h
  · have := (inv1 e h).2.1
    omega
  · obtain ⟨x, hx, hxe⟩ := List.mem_map.mp h
    rcases inv2 x (List.mem_reverse.mp hx) with h' | h'
    · simp at h'
    · have hx2 : x < lines.length := by
        have := h'.2.1
        omega
      rw [← hxe]
      simpa using hx2

/-- Every diagnostic a section's validation emits lies strictly below the
number of lines of the section. -/
lemma sectionDiags_mem_lt (lines : List String) (e : PumlErr)
    (he : e ∈ sectionDiags lines) : e.line_number < lines.length := by
  rcases List.mem_append.mp he with h | h
  · obtain ⟨l, hl, hel⟩ := List.mem_flatten.mp h
    obtain ⟨r, -, hr⟩ := List.mem_map.mp hl
    rw [← hr] at hel
    have := (patternErrs_mem lines 0 e hel).2.1
    omega
  · obtain ⟨l, hl, hel⟩ := List.mem_flatten.mp h
    obtain ⟨b, -, hb⟩ := List.mem_map.mp hl
    rw [← hb] at hel
    exact blockErrs_mem_lt b.op b.mid b.cl b.open_text b.close_text lines e hel

/-- Claim C9: every diagnostic carried by a validated section has a line
index strictly below the section's number of lines, so indexing the
section's lines by a diagnostic's line index (as the reporter does) is
always in bounds. -/
theorem claim9_diagnostics_inbounds (p : Puml)
    (h : ∀ e ∈ p.errors, e.line_number < p.lines.length) :
    ∀ e ∈ (p.validate).errors, e.line_number < (p.validate).lines.length := by
  intro e he
  rw [Puml.lines_validate]
  rw [Puml.errors_validate] at he
  rcases List.mem_append.mp (List.mem_mergeSort.mp he) with h1 | h1
  · exact h e h1
  · exact sectionDiags_mem_lt p.lines e h1

/-- Witness for C9 on a section that does produce a diagnostic. -/
theorem claim9_diagnostics_inbounds_witness :
    (∀ e ∈ (Puml.mk 0 ["switch (x)", "endswitch", "endswitch"] []).errors,
      e.line_number <
        (Puml.mk 0 ["switch (x)", "endswitch", "endswitch"] []).lines.length) ∧
    (∀ e ∈ ((Puml.mk 0 ["switch (x)", "endswitch", "endswitch"] []).validate).errors,
      e.line_number <
        ((Puml.mk 0 ["switch (x)", "endswitch", "endswitch"] []).validate).lines.length) :=
  ⟨by simp, claim9_diagnostics_inbounds
    (Puml.mk 0 ["switch (x)", "endswitch", "endswitch"] []) (by simp)⟩

/-- Claim C3: after a Block Matcher scan, the end-of-scan diagnostics are
exactly one "no closing" diagnostic per line index still resident in the
Opening Stack, appended after the scan diagnostics in stack insertion order
(ascending line index, outermost open first); every such resident index is
the index of an open-matching line, and exactly one diagnostic of the
matcher's whole output sits at that index. -/
theorem claim3_unclosed_opens (op : String → Bool) (mid : Option (String → Bool))
    (cl : String → Bool) (t ct : String) (lines : List String) :
    blockErrs op mid cl t ct lines =
      (scanOpenClose op mid cl t 0 [] lines).1 ++
        (scanOpenClose op mid cl t 0 [] lines).2.reverse.map
          (fun x => ⟨x, noClosingMsg ct⟩) ∧
    ((scanOpenClose op mid cl t 0 [] lines).2.reverse).Pairwise (· < ·) ∧
    (∀ x ∈ (scanOpenClose op mid cl t 0 [] lines).2,
        ∃ l, lines.get? x = some l ∧ op (trimS l) = true) ∧
    (∀ x ∈ (scanOpenClose op mid cl t 0 [] lines).2,
        (blockErrs op mid cl t ct lines).countP
          (fun e => e.line_number == x) = 1) := by
  obtain ⟨inv1, inv2, inv3⟩ := scanOC_inv op mid cl t lines 0 [] (by simp)
    List.Pairwise.nil
  refine ⟨rfl, ?_, ?_, ?_⟩
  · rw [List.pairwise_reverse]
    exact inv3
  · intro x hx
    rcases inv2 x hx with h | h
    · simp at h
    · obtain ⟨-, -, l, hl, hop⟩ := h
      exact ⟨l, by simpa using hl, hop⟩
  · intro x hx
    rw [blockErrs, List.countP_append]
    have hzero : (scanOpenClose op mid cl t 0 [] lines).1.countP
        (fun e => e.line_number == x) = 0 := by
      rw [List.countP_eq_zero]
      intro e he hbe
      obtain ⟨-, -, -, l, hl, hop⟩ := inv1 e he
      rcases inv2 x hx with h | h
      · simp at h
      · obtain ⟨-, -, l', hl', hop'⟩ := h
        have hex : e.line_number = x := by simpa using hbe
        rw [hex] at hl
        rw [hl] at hl'
        rw [Option.some.injEq] at hl'
        rw [hl'] at hop
        rw [hop] at hop'
        exact Bool.noConfusion hop'
    rw [hzero, Nat.zero_add, List.countP_map]
    have hcomp : ((fun e : PumlErr => e.line_number == x) ∘
        (fun y => (⟨y, noClosingMsg ct⟩ : PumlErr))) = fun y => y == x := rfl
    rw [hcomp]
    have hnodup : (scanOpenClose op mid cl t 0 [] lines).2.Nodup :=
      inv3.imp (fun h => (Nat.ne_of_lt h).symm)
    have hcount : (scanOpenClose op mid cl t 0 [] lines).2.reverse.count x = 1 := by
      rw [List.count_reverse]
      exact List.count_eq_one_of_mem hnodup hx
    rw [List.count_eq_countP] at hcount
    exact hcount

/-- Claim C4: a close line reached while the Opening Stack is empty yields
exactly one "no opening" diagnostic at that line's index, and the scan of
the remaining lines continues from the same (empty) stack, so no other
pending open is affected; moreover the section
`["switch (x)", "case (1)", "endswitch"]` validates with zero diagnostics
and `["switch (x)", "endswitch", "endswitch"]` with exactly one diagnostic,
at index 2 with message "no opening switch (*) found", none on the first
`endswitch`. -/
theorem claim4_close_on_empty_stack (op : String → Bool)
    (mid : Option (String → Bool)) (cl : String → Bool) (t ct : String)
    (pre suf : List String) (line : String)
    (hline : classify op mid cl (trimS line) = .clos)
    (hstack : (scanOpenClose op mid cl t 0 [] pre).2 = []) :
    scanOpenClose op mid cl t 0 [] (pre ++ line :: suf) =
      ((scanOpenClose op mid cl t 0 [] pre).1 ++
        ⟨pre.length, noOpeningMsg t⟩ ::
          (scanOpenClose op mid cl t (pre.length + 1) [] suf).1,
       (scanOpenClose op mid cl t (pre.length + 1) [] suf).2) ∧
    (blockErrs op mid cl t ct (pre ++ line :: suf)).countP
        (fun e => e.line_number == pre.length) = 1 ∧
    ((Puml.mk 0 ["switch (x)", "case (1)", "endswitch"] []).validate).errors
      = [] ∧
    ((Puml.mk 0 ["switch (x)", "endswitch", "endswitch"] []).validate).errors
      = [⟨2, noOpeningMsg "switch (*)"⟩] := by
  have happ := scanOC_append op mid cl t pre (line :: suf) 0 []
  rw [hstack] at happ
  simp only [Nat.zero_add] at happ
  have hstep : scanOpenClose op mid cl t pre.length [] (line :: suf) =
      (⟨pre.length, noOpeningMsg t⟩ ::
         (scanOpenClose op mid cl t (pre.length + 1) [] suf).1,
       (scanOpenClose op mid cl t (pre.length + 1) [] suf).2) := by
    simp only [scanOpenClose, hline]
  have hmain : scanOpenClose op mid cl t 0 [] (pre ++ line :: suf) =
      ((scanOpenClose op mid cl t 0 [] pre).1 ++
        ⟨pre.length, noOpeningMsg t⟩ ::
          (scanOpenClose op mid cl t (pre.length + 1) [] suf).1,
       (scanOpenClose op mid cl t (pre.length + 1) [] suf).2) := by
    rw [happ, hstep]
  refine ⟨hmain, ?_, ?_, ?_⟩
  · obtain ⟨invp1, -, -⟩ := scanOC_inv op mid cl t pre 0 [] (by simp)
      List.Pairwise.nil
    obtain ⟨invs1, invs2, -⟩ := scanOC_inv op mid cl t suf (pre.length + 1) []
      (by simp) List.Pairwise.nil
    rw [blockErrs, hmain]
    simp only [List.countP_append, List.countP_cons]
    have c1 : (scanOpenClose op mid cl t 0 [] pre).1.countP
        (fun e => e.line_number == pre.length) = 0 := by
      rw [List.countP_eq_zero]
      intro e he
      have := (invp1 e he).2.1
      simp only [beq_iff_eq]
      omega
    have c2 : (scanOpenClose op mid cl t (pre.length + 1) [] suf).1.countP
        (fun e => e.line_number == pre.length) = 0 := by
      rw [List.countP_eq_zero]
      intro e he
      have := (invs1 e he).1
      simp only [beq_iff_eq]
      omega
    have c3 : ((scanOpenClose op mid cl t (pre.length + 1) [] suf).2.reverse.map
        (fun x => (⟨x, noClosingMsg ct⟩ : PumlErr))).countP
        (fun e => e.line_number == pre.length) = 0 := by
      rw [List.countP_eq_zero]
      intro e he
      obtain ⟨x, hx, hxe⟩ := List.mem_map.mp he
      rcases invs2 x (List.mem_reverse.mp hx) with h | h
      · simp at h
      · rw [← hxe]
        simp only [beq_iff_eq]
        have := h.1
        omega
    rw [c1, c2, c3]
    simp
  · have hs1 : sectionDiags ["switch (x)", "case (1)", "endswitch"] = [] := by
      decide
    rw [Puml.errors_validate]
    show (([] : List PumlErr) ++
        sectionDiags ["switch (x)", "case (1)", "endswitch"]).mergeSort errLE = []
    rw [List.nil_append, hs1]
    exact List.mergeSort_nil
  · have hs2 : sectionDiags ["switch (x)", "endswitch", "endswitch"] =
        [⟨2, noOpeningMsg "switch (*)"⟩] := by decide
    rw [Puml.errors_validate]
    show (([] : List PumlErr) ++
        sectionDiags ["switch (x)", "endswitch", "endswitch"]).mergeSort errLE =
      [⟨2, noOpeningMsg "switch (*)"⟩]
    rw [List.nil_append, hs2]
    exact List.mergeSort_singleton _

/-- Witness for C4: the stray second `endswitch` of
`["switch (x)", "endswitch", "endswitch"]`, a close reached on an empty
stack, receives exactly one diagnostic from the switch matcher. -/
theorem claim4_close_on_empty_stack_witness :
    classify mSwitchOpen (some mCaseMiddle) mSwitchClose
      (trimS "endswitch") = .clos ∧
    (scanOpenClose mSwitchOpen (some mCaseMiddle) mSwitchClose "switch (*)" 0 []
      ["switch (x)", "endswitch"]).2 = [] ∧
    (blockErrs mSwitchOpen (some mCaseMiddle) mSwitchClose "switch (*)"
        "endswitch" (["switch (x)", "endswitch"] ++ "endswitch" :: [])).countP
      (fun e => e.line_number == (["switch (x)", "endswitch"] : List String).length)
      = 1 :=
  ⟨by decide, by decide,
   (claim4_close_on_empty_stack mSwitchOpen (some mCaseMiddle) mSwitchClose
      "switch (*)" "endswitch" ["switch (x)", "endswitch"] [] "endswitch"
      (by decide) (by decide)).2.1⟩

/-- Counterexample for C10: the file `["@startuml", "@startuml"]` contains a
begin delimiter never followed by an end delimiter, yet extraction does NOT
silently keep the earlier (empty) list of complete sections — the nested
begin is a hard parse failure, the whole file is skipped with an
error-channel message (`none`). -/
theorem claim10_counterexample :
    extractPumls ["@startuml", "@startuml"] = none := by decide

/-- One successful step of the extraction loop. -/
lemma parsePumls_cons (line : String) (rest : List String) (n : Nat)
    (st st2 : ParseState) (h : processLine n line st = some st2) :
    parsePumls (line :: rest) n st = parsePumls rest (n + 1) st2 := by
  rw [parsePumls, h]

/-- Claim C10 (amended): if a file parses cleanly up to some point with no
section open, and is then followed by a begin delimiter after which no
further delimiter line (neither `@enduml` nor `@startuml`) occurs before end
of file, the trailing unterminated section is silently discarded: extraction
succeeds (the file is not skipped, no error-channel message) and returns
exactly the earlier complete sections — the same result as for the file
truncated before the trailing begin delimiter. -/
theorem claim10_trailing_section_discarded (pre tail : List String)
    (b : String) (st : ParseState)
    (hpre : parsePumls pre 0 ⟨false, Puml.new, []⟩ = some st)
    (hread : st.reading_uml = false)
    (hb1 : startsWithS (trimS b) "@startuml" = true)
    (hb2 : startsWithS (trimS b) "@enduml" = false)
    (htail : ∀ l ∈ tail, startsWithS (trimS l) "@enduml" = false ∧
        startsWithS (trimS l) "@startuml" = false) :
    extractPumls (pre ++ b :: tail) = some st.pumls ∧
    extractPumls pre = some st.pumls := by
  have hb : processLine pre.length b st =
      some { st with reading_uml := true,
                     buf := { st.buf with starting_line := pre.length } } := by
    simp [processLine, hb1, hb2, hread]
  constructor
  · rw [extractPumls, parsePumls_append pre (b :: tail) 0 ⟨false, Puml.new, []⟩,
      hpre, Option.some_bind, Nat.zero_add,
      parsePumls_cons b tail pre.length st _ hb]
    obtain ⟨st2, hst2, hp⟩ := parsePumls_noDelim tail (pre.length + 1)
      { st with reading_uml := true,
                buf := { st.buf with starting_line := pre.length } }
      rfl htail
    rw [hst2, Option.map_some']
    rw [hp]
  · rw [extractPumls, hpre]
    rfl

/-- Witness for C10 (amended): a file with one complete section followed by
an unterminated `@startuml` over line `"x"` keeps only the complete
section. -/
theorem claim10_trailing_section_discarded_witness :
    parsePumls ["@startuml", "a", "@enduml"] 0 ⟨false, Puml.new, []⟩ =
      some ⟨false, Puml.new, [⟨0, ["a"], []⟩]⟩ ∧
    extractPumls (["@startuml", "a", "@enduml"] ++ "@startuml" :: ["x"]) =
      some [⟨0, ["a"], []⟩] ∧
    extractPumls ["@startuml", "a", "@enduml"] = some [⟨0, ["a"], []⟩] := by
  refine ⟨by decide, ?_⟩
  exact claim10_trailing_section_discarded ["@startuml", "a", "@enduml"] ["x"]
    "@startuml" ⟨false, Puml.new, [⟨0, ["a"], []⟩]⟩ (by decide) rfl
    (by decide) (by decide) (by decide)

end Pumlck
